import Mathlib

/-!
# Verification of the three-scatter chunk-streaming core

A shallow embedding of the deterministic parts of the `three-scatter`
repository (seeded RNG, Perlin noise field, instance pool, chunk seed
derivation, LOD lookup, grid/radial/curve placement, density-map sampling)
together with proofs and refutations of the specification's claims.

JavaScript `number` arithmetic is modelled over `ℚ` (exact rational
arithmetic); 32-bit integer coercions (`| 0`, `^`, `>>> 0`, `& 255`) are
modelled explicitly with `% 2^32` on `ℤ`/`ℕ`.  A JavaScript `NaN` produced
by `0/0` is modelled as `Option.none` where it matters.  Transcendental
library functions (`Math.cos`, `Math.sin`, `Math.pow` with fractional
exponent, `Math.atan2`, `Math.sqrt`) are uninterpreted parameters, packed
in `MathFns`.
-/

set_option maxRecDepth 4000

namespace ThreeScatter

/-! ## SeededRandom (src/src/utils/SeededRandom.ts)

`next()` is `seed = (seed * 9301 + 49297) % 233280; return seed / 233280`.
The repository always constructs it from an unsigned-32-bit chunk seed, so
the state is a natural number. -/

def lcgStep (s : ℕ) : ℕ := (s * 9301 + 49297) % 233280

/-- `SeededRandom.next()`: updated state together with the returned float. -/
def randNext (s : ℕ) : ℕ × ℚ :=
  let s2 := lcgStep s
  (s2, (s2 : ℚ) / 233280)

/-- `SeededRandom.range(min, max)`. -/
def randRange (s : ℕ) (lo hi : ℚ) : ℕ × ℚ :=
  let r := randNext s
  (r.1, lo + r.2 * (hi - lo))

/-- `SeededRandom.rangeInt(min, max)`: `Math.floor(range(min, max + 1))`. -/
def randRangeInt (s : ℕ) (lo hi : ℚ) : ℕ × ℤ :=
  let r := randRange s lo (hi + 1)
  (r.1, ⌊r.2⌋)

/-- One call of the public `SeededRandom` API. -/
inductive RNGCall where
  | nextCall : RNGCall
  | rangeCall (lo hi : ℚ) : RNGCall
  | rangeIntCall (lo hi : ℚ) : RNGCall

def runCall (s : ℕ) : RNGCall → ℕ × ℚ
  | RNGCall.nextCall => randNext s
  | RNGCall.rangeCall lo hi => randRange s lo hi
  | RNGCall.rangeIntCall lo hi =>
      let r := randRangeInt s lo hi
      (r.1, (r.2 : ℚ))

/-- Drive a `SeededRandom` instance through a call sequence, collecting the
outputs.  The state is a pure function of the seed and the calls: the source
`next()` reads and writes only `this.seed`. -/
def runCalls (s : ℕ) : List RNGCall → List ℚ × ℕ
  | [] => ([], s)
  | c :: cs =>
      let r := runCall s c
      let rest := runCalls r.1 cs
      (r.2 :: rest.1, rest.2)

/-! ## PerlinNoise (src/src/utils/PerlinNoise.ts)

The JavaScript permutation arrays are modelled as functions `ℕ → ℕ` with
pointwise update; only the indices the source writes and reads are relevant. -/

/-- Swap entries `i` and `j` of an array modelled as a function
(`[p[i], p[j]] = [p[j], p[i]]`). -/
def swapFn (f : ℕ → ℕ) (i j : ℕ) : ℕ → ℕ :=
  fun k => if k = i then f j else if k = j then f i else f k

/-- One step of the constructor's Fisher–Yates shuffle:
`j = Math.floor(rng.next() * (i + 1))`, exactly `s2 * (i + 1) / 233280` in
ℕ, then swap `p[i]` and `p[j]`. -/
def shuffleStep (st : ℕ × (ℕ → ℕ)) (i : ℕ) : ℕ × (ℕ → ℕ) :=
  let s2 := lcgStep st.1
  let j := s2 * (i + 1) / 233280
  (s2, swapFn st.2 i j)

/-- The 256-entry array `p` built by the `PerlinNoise` constructor:
identity table, Fisher–Yates shuffled with the seeded RNG for
`i = 255 .. 1`. -/
def permBase (seed : ℕ) : ℕ → ℕ :=
  (((List.range 255).map (fun k => 255 - k)).foldl shuffleStep
      (seed, fun k => k)).2

/-- The doubled 512-entry table: `permutation[i] = p[i & 255]`
(all reads are at indices `< 512`, where `i & 255 = i % 256`). -/
def permTable (seed : ℕ) : ℕ → ℕ :=
  fun i => permBase seed (i % 256)

/-- `fade(t) = t*t*t*(t*(t*6-15)+10)`. -/
def fade (t : ℚ) : ℚ := t * t * t * (t * (t * 6 - 15) + 10)

/-- `lerp(a, b, t) = a + t * (b - a)`. -/
def lerpQ (a b t : ℚ) : ℚ := a + t * (b - a)

/-- `grad(hash, x, y)`: `h = hash & 3`; `u = h < 2 ? x : y`;
`v = h < 2 ? y : x`; `((h & 1) ? -u : u) + ((h & 2) ? -2v : 2v)`.
For `h < 4`, `h & 1 = h % 2` and `h & 2 ≠ 0 ↔ 2 ≤ h`. -/
def grad (hash : ℕ) (x y : ℚ) : ℚ :=
  let h := hash % 4
  let u := if h < 2 then x else y
  let v := if h < 2 then y else x
  (if h % 2 = 1 then -u else u) + (if 2 ≤ h then -2 * v else 2 * v)

/-- `noise2D(x, y)` over a given permutation table.  `Math.floor(x) & 255`
is `⌊x⌋ % 256` (Euclidean remainder, matching the two's-complement `& 255`
for in-range int32 values). -/
def noise2D (perm : ℕ → ℕ) (x y : ℚ) : ℚ :=
  let X : ℕ := ((⌊x⌋ : ℤ) % 256).toNat
  let Y : ℕ := ((⌊y⌋ : ℤ) % 256).toNat
  let xf : ℚ := x - ⌊x⌋
  let yf : ℚ := y - ⌊y⌋
  let u := fade xf
  let v := fade yf
  let a := perm X + Y
  let b := perm (X + 1) + Y
  (lerpQ
    (lerpQ (grad (perm a) xf yf) (grad (perm b) (xf - 1) yf) u)
    (lerpQ (grad (perm (a + 1)) xf (yf - 1))
           (grad (perm (b + 1)) (xf - 1) (yf - 1)) u)
    v + 1) * (1 / 2)

/-- `PerlinNoise` constructed from a seed, then `noise2D`. -/
def perlinNoise2D (seed : ℕ) (x y : ℚ) : ℚ := noise2D (permTable seed) x y

/-- The `fbm2D` octave loop.  State: `(value, amplitude, frequency,
maxValue)`; each octave adds `noise2D(x*frequency, y*frequency) * amplitude`
to `value` and `amplitude` to `maxValue`, then multiplies `amplitude` by
`persistence` and `frequency` by `lacunarity`. -/
def fbmAux (perm : ℕ → ℕ) (x y persistence lacunarity : ℚ) :
    ℕ → ℚ × ℚ × ℚ × ℚ → ℚ × ℚ
  | 0, st => (st.1, st.2.2.2)
  | n + 1, st =>
      fbmAux perm x y persistence lacunarity n
        (st.1 + noise2D perm (x * st.2.2.1) (y * st.2.2.1) * st.2.1,
         st.2.1 * persistence, st.2.2.1 * lacunarity, st.2.2.2 + st.2.1)

/-- `fbm2D(x, y, octaves, persistence, lacunarity, scale)`: scaled inputs,
octave accumulation from `(0, 1, 1, 0)`, result `value / maxValue`. -/
def fbm2D (perm : ℕ → ℕ) (x y : ℚ) (octaves : ℕ)
    (persistence lacunarity scale : ℚ) : ℚ :=
  let r := fbmAux perm (x * scale) (y * scale) persistence lacunarity
    octaves (0, 1, 1, 0)
  r.1 / r.2

/-- Seeded construction followed by `fbm2D`. -/
def perlinFbm2D (seed : ℕ) (x y : ℚ) (octaves : ℕ)
    (persistence lacunarity scale : ℚ) : ℚ :=
  fbm2D (permTable seed) x y octaves persistence lacunarity scale

/-! ## InstancePool (src/src/utils/InstancePool.ts)

`activeInstances` is a JS `Set<number>` (modelled as `Finset ℕ`);
`freeIds` is a JS array used as a stack via `push`/`pop` — the head of the
Lean list models the array end, so `pop` is head removal and `push` is
cons. -/

structure Pool where
  activeInstances : Finset ℕ
  freeIds : List ℕ
  nextId : ℕ
  maxInstances : ℕ
  deriving DecidableEq

/-- `new InstancePool(maxInstances)`. -/
def Pool.mkPool (maxInstances : ℕ) : Pool :=
  ⟨∅, [], 0, maxInstances⟩

/-- `acquire()`: reuse the most recently freed id, else mint `nextId` while
under the limit, else return `null`. -/
def Pool.acquire (p : Pool) : Option ℕ × Pool :=
  match p.freeIds with
  | id :: rest =>
      (some id, { p with activeInstances := insert id p.activeInstances,
                         freeIds := rest })
  | [] =>
      if p.nextId < p.maxInstances then
        (some p.nextId,
         { p with activeInstances := insert p.nextId p.activeInstances,
                  nextId := p.nextId + 1 })
      else (none, p)

/-- `release(id)`: only if `id` is currently active, remove it and push it
on the free list (releasing a non-active id is a no-op). -/
def Pool.release (p : Pool) (id : ℕ) : Pool :=
  if id ∈ p.activeInstances then
    { p with activeInstances := p.activeInstances.erase id,
             freeIds := id :: p.freeIds }
  else p

/-- `hasCapacity()`. -/
def Pool.hasCapacity (p : Pool) : Bool :=
  !p.freeIds.isEmpty || decide (p.nextId < p.maxInstances)

/-- `getActiveCount()`. -/
def Pool.getActiveCount (p : Pool) : ℕ := p.activeInstances.card

/-- One public pool operation. -/
inductive PoolOp where
  | acquireOp : PoolOp
  | releaseOp (id : ℕ) : PoolOp

def Pool.step (p : Pool) : PoolOp → Pool
  | PoolOp.acquireOp => (p.acquire).2
  | PoolOp.releaseOp id => p.release id

/-- The pool after a sequence of `acquire`/`release` calls on a fresh
`InstancePool(maxInstances)`. -/
def runPool (maxInstances : ℕ) (ops : List PoolOp) : Pool :=
  ops.foldl Pool.step (Pool.mkPool maxInstances)

/-! ## 32-bit chunk seed derivation (BaseScatterSystem.activateChunk and
each strategy's populateChunk):
`((x * 73856093) ^ (z * 19349663) ^ randomSeed) >>> 0`. -/

/-- JavaScript `ToUint32` (e.g. `v >>> 0`) of an integer value. -/
def toUInt32 (v : ℤ) : ℕ := (v % 4294967296).toNat

/-- JavaScript 32-bit signed xor `a ^ b`: both operands are converted with
`ToInt32`, xored bitwise, and the result read back as a signed int32. -/
def jsXor (a b : ℤ) : ℤ :=
  let u := Nat.xor (toUInt32 a) (toUInt32 b)
  if u < 2147483648 then (u : ℤ) else (u : ℤ) - 4294967296

/-- The chunk seed the source computes:
`((x * 73856093) ^ (z * 19349663) ^ randomSeed) >>> 0`. -/
def chunkSeedCode (x z randomSeed : ℤ) : ℕ :=
  toUInt32 (jsXor (jsXor (x * 73856093) (z * 19349663)) randomSeed)

/-- The formula as the specification words it: the unsigned 32-bit value of
`(x * 73856093) XOR (z * 19349663) XOR globalSeed`. -/
def chunkSeedSpecFormula (x z randomSeed : ℤ) : ℕ :=
  Nat.xor (Nat.xor (toUInt32 (x * 73856093)) (toUInt32 (z * 19349663)))
    (toUInt32 randomSeed)

/-! ## LOD density multiplier (BaseScatterSystem.getLODDensityMultiplier)

The part after the camera distance is computed: the loop walks the level
list from the last index down, returns on the first level whose `distance`
is `≤` the query distance, blending with the following level inside the
window `[level.distance, level.distance + blendDistance)` when one exists
and the distance is below the next level's distance. -/

structure LODLevel where
  distance : ℚ
  densityMultiplier : ℚ
  scaleMultiplier : Option ℚ

/-- The `for (let i = levels.length - 1; i >= 0; i--)` loop: the list
argument is the level list reversed (walked from the end), `next` is the
level at index `i + 1` (`none` at the last index). -/
def lodLoop (blendDistance dist : ℚ) :
    List LODLevel → Option LODLevel → ℚ
  | [], _ => 1
  | l :: rest, next =>
      if l.distance ≤ dist then
        match next with
        | some nl =>
            if 0 < blendDistance ∧ dist < l.distance + blendDistance ∧
                dist < nl.distance then
              let t := (dist - l.distance) / blendDistance
              let clampedT := min 1 (max 0 t)
              l.densityMultiplier * (1 - clampedT) +
                nl.densityMultiplier * clampedT
            else l.densityMultiplier
        | none => l.densityMultiplier
      else lodLoop blendDistance dist rest (some l)

/-- `getLODDensityMultiplier` as a function of the planar camera-to-chunk
distance (an empty level list yields 1.0 upstream; the loop falling through
also yields 1.0). -/
def lodDensityMultiplier (levels : List LODLevel) (blendDistance dist : ℚ) :
    ℚ :=
  lodLoop blendDistance dist levels.reverse none

/-! ## Density map sampling (BaseScatterSystem.sampleDensityMap) -/

/-- `config.densityMap.worldBounds`: a `THREE.Box2` (`min`/`max` are
`Vector2`s whose `y` holds world `z`). -/
structure WorldBounds where
  minX : ℚ
  minY : ℚ
  maxX : ℚ
  maxY : ℚ

/-- The `config.densityMap` part `sampleDensityMap` reads: world bounds,
a channel offset (0–3 for r/g/b/a) and a multiplier. -/
structure DensityMapCfg where
  worldBounds : WorldBounds
  channelOffset : ℕ
  multiplier : ℚ

/-- The loaded texture pixel data: image dimensions and the RGBA byte
array (a function from byte index to byte value). -/
structure DensityMapImg where
  width : ℕ
  height : ℕ
  data : ℕ → ℕ

/-- The `u` texture coordinate computed from a world `x`. -/
def densityU (cfg : DensityMapCfg) (worldX : ℚ) : ℚ :=
  (worldX - cfg.worldBounds.minX) / (cfg.worldBounds.maxX - cfg.worldBounds.minX)

/-- The `v` texture coordinate computed from a world `z`. -/
def densityV (cfg : DensityMapCfg) (worldZ : ℚ) : ℚ :=
  (worldZ - cfg.worldBounds.minY) / (cfg.worldBounds.maxY - cfg.worldBounds.minY)

/-- `sampleDensityMap(worldX, worldZ)`: `1.0` when no pixel data or no
config is present, `1.0` when `(u, v)` leaves the unit square, otherwise
the sampled channel byte scaled to `[0,1]` times the configured
multiplier. -/
def sampleDensityMap (img : Option DensityMapImg) (cfg : Option DensityMapCfg)
    (worldX worldZ : ℚ) : ℚ :=
  match img, cfg with
  | some img, some cfg =>
      let u := densityU cfg worldX
      let v := densityV cfg worldZ
      if u < 0 ∨ 1 < u ∨ v < 0 ∨ 1 < v then 1
      else
        let px := (⌊u * ((img.width : ℚ) - 1)⌋ : ℤ)
        let py := (⌊(1 - v) * ((img.height : ℚ) - 1)⌋ : ℤ)
        let idx := ((py * img.width + px) * 4).toNat
        let value := (img.data (idx + cfg.channelOffset) : ℚ) / 255
        value * cfg.multiplier
  | _, _ => 1

/-! ## Shared placement machinery -/

/-- JavaScript `ToInt32` truncates its argument toward zero before the
wrap-around; this is the truncation step for in-float-range values. -/
def ratTrunc (q : ℚ) : ℤ := if 0 ≤ q then ⌊q⌋ else ⌈q⌉

/-- The transcendental `Math` functions the placement code calls, left
uninterpreted (any function of the right arity). -/
structure MathFns where
  cosF : ℚ → ℚ
  sinF : ℚ → ℚ
  powF : ℚ → ℚ → ℚ
  atan2F : ℚ → ℚ → ℚ
  sqrtF : ℚ → ℚ

/-- One `converter.setInstanceTransform(id, position, rotation, scale)`
call (only the y rotation component and the uniform scale vary). -/
structure PlacedInstance where
  id : ℕ
  posX : ℚ
  posY : ℚ
  posZ : ℚ
  rotY : ℚ
  scale : ℚ
  deriving DecidableEq

/-- The per-chunk noise-distribution part of the config
(`config.noiseDistribution`). -/
structure NoiseCfg where
  enabled : Bool
  octaves : ℕ
  persistence : ℚ
  lacunarity : ℚ
  scale : ℚ
  threshold : ℚ
  power : ℚ
  offset : ℚ

/-- `BaseScatterSystem.getNoiseValue`:
`Math.pow(fbm2D(x, z, ...) + offset, power)`. -/
def getNoiseValue (fns : MathFns) (noise : NoiseCfg) (perm : ℕ → ℕ)
    (x z : ℚ) : ℚ :=
  fns.powF (fbm2D perm x z noise.octaves noise.persistence noise.lacunarity
    noise.scale + noise.offset) noise.power

/-- `BaseScatterSystem.shouldPlaceInstance`: accept unconditionally when
noise distribution is disabled, else require `noiseValue >= threshold`. -/
def shouldPlaceInstance (fns : MathFns) (noise : NoiseCfg) (perm : ℕ → ℕ)
    (x z : ℚ) : Bool :=
  if noise.enabled = false then true
  else decide (noise.threshold ≤ getNoiseValue fns noise perm x z)

/-! ## GridScatterSystem (grid placement, `populateChunk` and
`updateChunks`) -/

structure GridCfg where
  gridX : ℕ
  gridZ : ℕ
  cellSize : ℚ
  centerX : ℚ
  centerZ : ℚ
  randomOffset : ℚ
  chunkSize : ℚ
  randomSeed : ℤ
  rotLo : ℚ
  rotHi : ℚ
  scaleLo : ℚ
  scaleHi : ℚ
  heightOffset : ℚ
  visibilityRange : ℚ
  skipPattern : Option (ℕ → ℕ → Bool)

/-- Mutable state threaded through a grid `populateChunk` call: the chunk
RNG, the shared pool, `chunk.instances`, and the transforms reported to the
converter. -/
structure GState where
  rng : ℕ
  pool : Pool
  inst : List ℕ
  placed : List PlacedInstance

/-- The body of the grid cell loop for one non-skipped cell.  Returns the
new state and whether the inner loop `break`s (pool exhausted).  The chunk
bounds have infinite y extent, so containment constrains only x and z. -/
def gridCellBody (cfg : GridCfg) (centerX centerZ gridStartX gridStartZ : ℚ)
    (gx gz : ℕ) (st : GState) : GState × Bool :=
  let cellCenterX := gridStartX + ((gx : ℚ) + 1 / 2) * cfg.cellSize
  let cellCenterZ := gridStartZ + ((gz : ℚ) + 1 / 2) * cfg.cellSize
  let r1 := randNext st.rng
  let offsetX := (r1.2 - 1 / 2) * cfg.cellSize * cfg.randomOffset
  let r2 := randNext r1.1
  let offsetZ := (r2.2 - 1 / 2) * cfg.cellSize * cfg.randomOffset
  let x := cellCenterX + offsetX
  let z := cellCenterZ + offsetZ
  if ¬ (centerX - cfg.chunkSize / 2 ≤ x ∧ x ≤ centerX + cfg.chunkSize / 2 ∧
        centerZ - cfg.chunkSize / 2 ≤ z ∧ z ≤ centerZ + cfg.chunkSize / 2) then
    ({ st with rng := r2.1 }, false)
  else
    match st.pool.acquire with
    | (none, p2) => ({ st with rng := r2.1, pool := p2 }, true)
    | (some id, p2) =>
        let r3 := randRange r2.1 cfg.rotLo cfg.rotHi
        let r4 := randRange r3.1 cfg.scaleLo cfg.scaleHi
        let posY := 0 + cfg.heightOffset
        ({ rng := r4.1, pool := p2, inst := st.inst ++ [id],
           placed := st.placed ++ [⟨id, x, posY, z, r3.2, r4.2⟩] }, false)

/-- The inner `for (let gz = ...)` loop over one column, with the
skip-pattern check and the `break` on pool exhaustion (which leaves the
inner loop only). -/
def gridInner (cfg : GridCfg) (centerX centerZ gridStartX gridStartZ : ℚ)
    (gx : ℕ) : List ℕ → GState → GState
  | [], st => st
  | gz :: rest, st =>
      let skipped := match cfg.skipPattern with
        | some skip => skip gx gz
        | none => false
      if skipped then
        gridInner cfg centerX centerZ gridStartX gridStartZ gx rest st
      else
        let r := gridCellBody cfg centerX centerZ gridStartX gridStartZ
          gx gz st
        if r.2 then r.1
        else gridInner cfg centerX centerZ gridStartX gridStartZ gx rest r.1

/-- `GridScatterSystem.populateChunk` for the chunk centred at
`(centerX, centerZ)`: seed the RNG with the chunk seed, then walk the grid
cells (gx outer, gz inner). -/
def gridPopulateChunk (cfg : GridCfg) (centerX centerZ : ℚ) (pool : Pool) :
    GState :=
  let seed := chunkSeedCode (ratTrunc centerX) (ratTrunc centerZ)
    cfg.randomSeed
  let halfGridX := ((cfg.gridX : ℚ) * cfg.cellSize) / 2
  let halfGridZ := ((cfg.gridZ : ℚ) * cfg.cellSize) / 2
  let gridStartX := cfg.centerX - halfGridX
  let gridStartZ := cfg.centerZ - halfGridZ
  (List.range cfg.gridX).foldl
    (fun st gx =>
      gridInner cfg centerX centerZ gridStartX gridStartZ gx
        (List.range cfg.gridZ) st)
    ⟨seed, pool, [], []⟩

/-- The chunk-centre coordinates `GridScatterSystem.updateChunks` scans:
`x` from `floor((center.x - halfGrid)/chunkSize) * chunkSize` up to
`ceil((center.x + halfGrid)/chunkSize) * chunkSize` in `chunkSize` steps
(for positive `chunkSize`), each shifted by `chunkSize / 2`; `x` is the
outer loop. -/
def gridVisibleCenters (cfg : GridCfg) : List (ℚ × ℚ) :=
  let halfGridX := ((cfg.gridX : ℚ) * cfg.cellSize) / 2
  let halfGridZ := ((cfg.gridZ : ℚ) * cfg.cellSize) / 2
  let minX := ⌊(cfg.centerX - halfGridX) / cfg.chunkSize⌋
  let maxX := ⌈(cfg.centerX + halfGridX) / cfg.chunkSize⌉
  let minZ := ⌊(cfg.centerZ - halfGridZ) / cfg.chunkSize⌋
  let maxZ := ⌈(cfg.centerZ + halfGridZ) / cfg.chunkSize⌉
  let xs := (List.range (maxX - minX + 1).toNat).map
    (fun k => ((minX + k : ℤ) : ℚ) * cfg.chunkSize + cfg.chunkSize / 2)
  let zs := (List.range (maxZ - minZ + 1).toNat).map
    (fun k => ((minZ + k : ℤ) : ℚ) * cfg.chunkSize + cfg.chunkSize / 2)
  xs.flatMap (fun x => zs.map (fun z => (x, z)))

/-- One full `updateChunks` pass on a fresh grid system: activate every
in-range chunk centre (`sqrt(dx² + dz²) <= visibilityRange`, modelled
squared, which is equivalent for a nonnegative range) that passes the
frustum test, threading the pool and collecting every reported transform
in activation order.  `frustum` is the `isChunkInFrustum` collaborator;
with frustum culling disabled it is constantly `true`. -/
def gridUpdateChunks (cfg : GridCfg) (camX camZ : ℚ)
    (frustum : ℚ → ℚ → Bool) (pool : Pool) : Pool × List PlacedInstance :=
  (gridVisibleCenters cfg).foldl
    (fun acc cc =>
      if ((cc.1 - camX) * (cc.1 - camX) + (cc.2 - camZ) * (cc.2 - camZ) ≤
            cfg.visibilityRange * cfg.visibilityRange) ∧
          frustum cc.1 cc.2 = true then
        let st := gridPopulateChunk cfg cc.1 cc.2 acc.1
        (st.pool, acc.2 ++ st.placed)
      else acc)
    (pool, [])

/-! ## RadialScatterSystem (`populateChunk` rejection-sampling loop and
`activateChunk`) -/

structure RadialCfg where
  centerX : ℚ
  centerZ : ℚ
  innerRadius : ℚ
  outerRadius : ℚ
  angleStart : ℚ
  angleEnd : ℚ
  heightLo : ℚ
  heightHi : ℚ
  radialDensityFalloff : ℚ
  chunkSize : ℚ
  density : ℚ
  rotLo : ℚ
  rotHi : ℚ
  scaleLo : ℚ
  scaleHi : ℚ
  heightOffset : ℚ
  noise : NoiseCfg
  randomSeed : ℤ

/-- State threaded through the radial `while` loop (`placed` is
`inst.length`). -/
structure RState where
  rng : ℕ
  pool : Pool
  inst : List ℕ
  placed : List PlacedInstance

/-- The radial rejection-sampling loop.  The fuel is the remaining attempt
budget (`maxAttempts - attempts`); the loop also stops when
`placed >= targetCount`, and `break`s — returning the current state — when
`acquire()` returns `null`.  Chunk bounds: x/z within `chunkSize / 2` of
the chunk centre, y within `heightRange`. -/
def radialLoop (fns : MathFns) (cfg : RadialCfg) (perm : ℕ → ℕ)
    (centerX centerZ : ℚ) (target : ℕ) : ℕ → RState → RState
  | 0, st => st
  | fuel + 1, st =>
      if st.inst.length < target then
        let r1 := randRange st.rng cfg.angleStart cfg.angleEnd
        let rad :=
          if 0 < cfg.radialDensityFalloff then
            let rn := randNext r1.1
            let t := fns.powF rn.2 (1 / (1 + cfg.radialDensityFalloff))
            (rn.1, cfg.innerRadius + t * (cfg.outerRadius - cfg.innerRadius))
          else randRange r1.1 cfg.innerRadius cfg.outerRadius
        let x := cfg.centerX + rad.2 * fns.cosF r1.2
        let z := cfg.centerZ + rad.2 * fns.sinF r1.2
        let ry := randRange rad.1 cfg.heightLo cfg.heightHi
        if ¬ (centerX - cfg.chunkSize / 2 ≤ x ∧
              x ≤ centerX + cfg.chunkSize / 2 ∧
              cfg.heightLo ≤ ry.2 ∧ ry.2 ≤ cfg.heightHi ∧
              centerZ - cfg.chunkSize / 2 ≤ z ∧
              z ≤ centerZ + cfg.chunkSize / 2) then
          radialLoop fns cfg perm centerX centerZ target fuel
            { st with rng := ry.1 }
        else if shouldPlaceInstance fns cfg.noise perm x z = false then
          radialLoop fns cfg perm centerX centerZ target fuel
            { st with rng := ry.1 }
        else
          match st.pool.acquire with
          | (none, p2) => { st with rng := ry.1, pool := p2 }
          | (some id, p2) =>
              let dirX := x - cfg.centerX
              let dirZ := z - cfg.centerZ
              let len := fns.sqrtF (dirX * dirX + dirZ * dirZ)
              let lenAdj := if len = 0 then 1 else len
              let rrot := randRange ry.1 cfg.rotLo cfg.rotHi
              let rotY := fns.atan2F (dirX / lenAdj) (dirZ / lenAdj) + rrot.2
              let rscale := randRange rrot.1 cfg.scaleLo cfg.scaleHi
              radialLoop fns cfg perm centerX centerZ target fuel
                ⟨rscale.1, p2, st.inst ++ [id],
                 st.placed ++ [⟨id, x, ry.2 + cfg.heightOffset, z, rotY,
                   rscale.2⟩]⟩
      else st

/-- The result of `activateChunk` for a radial system: the populated chunk
state, the instance count reported by the `onChunkActivated` event, and the
chunk's `isActive` flag. -/
structure ActivationResult where
  state : RState
  eventCount : ℕ
  isActive : Bool

/-- `BaseScatterSystem.activateChunk` specialised to the radial strategy:
derive the chunk seed, build the chunk noise field, run `populateChunk`
(`targetCount = floor(chunkSize² * density)`, `maxAttempts = 5 * target`;
a negative target runs zero iterations, matching `placed < targetCount`
failing), store the chunk as active, emit the activation event with the
resulting instance count. -/
def radialActivateChunk (fns : MathFns) (cfg : RadialCfg)
    (centerX centerZ : ℤ) (pool : Pool) : ActivationResult :=
  let seed := chunkSeedCode centerX centerZ cfg.randomSeed
  let perm := permTable seed
  let target := (⌊cfg.chunkSize * cfg.chunkSize * cfg.density⌋).toNat
  let st := radialLoop fns cfg perm (centerX : ℚ) (centerZ : ℚ) target
    (target * 5) ⟨seed, pool, [], []⟩
  ⟨st, st.inst.length, true⟩

/-- Free capacity of a pool state: free-listed ids plus never-minted ids.
Each successful `acquire()` consumes exactly one unit. -/
def Pool.remainingCapacity (p : Pool) : ℕ :=
  p.freeIds.length + (p.maxInstances - p.nextId)

/-! ## CurveScatterSystem degenerate geometry
(`generateCurvePoints` tangent pass and the `populateChunk` parameter
`t = i / (curvePoints.length - 1)`). -/

structure V3 where
  x : ℚ
  y : ℚ
  z : ℚ
  deriving DecidableEq

/-- A JS array read `points[i]`: `none` models the `undefined` produced by
an out-of-bounds index (negative included). -/
def listGetI (points : List V3) (i : ℤ) : Option V3 :=
  if h : 0 ≤ i ∧ i < points.length then
    some (points.get ⟨i.toNat, by omega⟩)
  else none

/-- The two points `generateCurvePoints` subtracts to form the tangent at
`index` (`subVectors(pos, prevPos)` at the last index, else
`subVectors(nextPos, pos)`).  `none` means the source read `undefined`
(for a single-point list, index 0 is the last index and `prevPos` is
`curvePoints[-1]`), on which `subVectors` throws. -/
def curveTangentOperands (points : List V3) (index : ℕ) : Option (V3 × V3) :=
  match listGetI points (index : ℤ) with
  | none => none
  | some pos =>
      if index = points.length - 1 then
        (listGetI points ((index : ℤ) - 1)).map (fun prevPos => (pos, prevPos))
      else
        (listGetI points ((index : ℤ) + 1)).map (fun nextPos => (nextPos, pos))

/-- `const t = i / (this.curvePoints.length - 1)` in `populateChunk`:
`none` models the NaN produced by `0 / 0` when the precomputed point list
has exactly one point (the only index the loop visits is `i = 0`). -/
def curveParamT (pointCount i : ℕ) : Option ℚ :=
  if pointCount = 1 then none
  else some ((i : ℚ) / ((pointCount : ℚ) - 1))

/-! ## Chunk activation/deactivation lifecycle (BaseScatterSystem
`activateChunk` / `deactivateChunk` over the chunk map and the shared
pool).

`populateChunk` is abstract in the base class; every concrete strategy
interacts with the pool in the same way: a loop that calls `acquire()`,
breaks out when it returns `null`, and pushes each successfully acquired
id exactly once onto `chunk.instances`.  Activation is modelled with the
number of acquisition attempts the strategy makes as a parameter. -/

abbrev ChunkKey := ℤ × ℤ

structure ChunkEntry where
  instances : List ℕ
  isActive : Bool
  deriving DecidableEq

/-- The scatter system state the lifecycle claims speak about: the
instance pool and the chunk map (`Map<string, ChunkData>`, modelled as an
association list where a `set` replaces any previous entry for the key). -/
structure SysState where
  pool : Pool
  chunks : List (ChunkKey × ChunkEntry)
  deriving DecidableEq

/-- A strategy's populate loop observed through the pool: acquire up to
`n` ids, stopping at the first `null`. -/
def acquireMany : ℕ → Pool → List ℕ × Pool
  | 0, p => ([], p)
  | n + 1, p =>
      match p.acquire with
      | (none, p2) => ([], p2)
      | (some id, p2) =>
          let r := acquireMany n p2
          (id :: r.1, r.2)

/-- `this.chunks.set(key, chunk)`. -/
def setChunk (k : ChunkKey) (c : ChunkEntry)
    (m : List (ChunkKey × ChunkEntry)) : List (ChunkKey × ChunkEntry) :=
  (k, c) :: m.filter (fun e => decide (e.1 ≠ k))

/-- `activateChunk`: populate a fresh chunk from the pool, store it as
active, (the activation event reports `instances.length`). -/
def SysState.doActivate (s : SysState) (k : ChunkKey) (n : ℕ) : SysState :=
  let r := acquireMany n s.pool
  ⟨r.2, setChunk k ⟨r.1, true⟩ s.chunks⟩

/-- Activation as driven by every strategy's `updateChunks`: only chunks
that are absent or inactive are (re)activated. -/
def SysState.activate (s : SysState) (k : ChunkKey) (n : ℕ) : SysState :=
  match s.chunks.lookup k with
  | some c => if c.isActive then s else s.doActivate k n
  | none => s.doActivate k n

/-- `deactivateChunk`: release every owned id back to the pool, clear the
instance list, mark the chunk inactive (missing key: no-op). -/
def SysState.deactivate (s : SysState) (k : ChunkKey) : SysState :=
  match s.chunks.lookup k with
  | none => s
  | some c =>
      ⟨c.instances.foldl Pool.release s.pool,
       setChunk k ⟨[], false⟩ s.chunks⟩

inductive SysOp where
  | activateOp (k : ChunkKey) (n : ℕ) : SysOp
  | deactivateOp (k : ChunkKey) : SysOp

def SysState.step (s : SysState) : SysOp → SysState
  | SysOp.activateOp k n => s.activate k n
  | SysOp.deactivateOp k => s.deactivate k

/-- The system after an arbitrary activation/deactivation history starting
from a fresh system with an empty chunk map. -/
def runSys (maxInstances : ℕ) (ops : List SysOp) : SysState :=
  ops.foldl SysState.step ⟨Pool.mkPool maxInstances, []⟩

/-! ## Invariants -/

/-- The pool's internal invariant: the free list holds no duplicates and no
active id, every id below `nextId` is exactly either active or free, and
the running counter never passes the capacity. -/
structure PoolInv (p : Pool) : Prop where
  freeNodup : p.freeIds.Nodup
  freeNotActive : ∀ id ∈ p.freeIds, id ∉ p.activeInstances
  partition : ∀ id : ℕ, id < p.nextId ↔
    (id ∈ p.activeInstances ∨ id ∈ p.freeIds)
  capBound : p.nextId ≤ p.maxInstances

/-- The lifecycle invariant tying the chunk map to the pool: every owned
id is active, each chunk owns each of its ids once, distinct chunks own
disjoint id sets, inactive chunks own nothing, and every active id is
owned by some chunk. -/
structure SysInv (s : SysState) : Prop where
  poolInv : PoolInv s.pool
  keysNodup : (s.chunks.map Prod.fst).Nodup
  inactiveEmpty : ∀ e ∈ s.chunks, e.2.isActive = false → e.2.instances = []
  instNodup : ∀ e ∈ s.chunks, e.2.instances.Nodup
  owned : ∀ e ∈ s.chunks, ∀ id ∈ e.2.instances, id ∈ s.pool.activeInstances
  disjointInst : s.chunks.Pairwise
    (fun e1 e2 => ∀ id ∈ e1.2.instances, id ∉ e2.2.instances)
  covered : ∀ id ∈ s.pool.activeInstances, ∃ e ∈ s.chunks,
    id ∈ e.2.instances

/-! # Theorems -/

/-! ## Pool lemmas -/

theorem poolInv_mkPool (maxInstances : ℕ) : PoolInv (Pool.mkPool maxInstances) := by
  refine ⟨List.nodup_nil, ?_, ?_, Nat.zero_le _⟩ <;> simp [Pool.mkPool]

theorem acquire_none_iff (p : Pool) :
    (p.acquire).1 = none ↔ p.freeIds = [] ∧ ¬ p.nextId < p.maxInstances := by
  unfold Pool.acquire
  rcases p.freeIds with _ | ⟨id, rest⟩ <;> simp
  split <;> simp_all

theorem acquire_none_state (p : Pool) (h : (p.acquire).1 = none) :
    (p.acquire).2 = p := by
  unfold Pool.acquire at h ⊢
  rcases hf : p.freeIds with _ | ⟨i0, rest⟩ <;> simp [hf] at h ⊢
  by_cases hlt : p.nextId < p.maxInstances
  · simp [hlt] at h
  · simp [hlt]

theorem acquire_some_state (p : Pool) (i0 : ℕ) (p2 : Pool)
    (h : p.acquire = (some i0, p2)) :
    p2.maxInstances = p.maxInstances ∧
    p2.activeInstances = insert i0 p.activeInstances ∧
    p2.remainingCapacity + 1 = p.remainingCapacity := by
  unfold Pool.acquire at h
  rcases hf : p.freeIds with _ | ⟨j0, rest⟩ <;> simp [hf] at h
  · by_cases hlt : p.nextId < p.maxInstances
    · simp [hlt] at h
      rcases h with ⟨h1, h2⟩
      subst h1
      simp [← h2, Pool.remainingCapacity, hf]
      omega
    · simp [hlt] at h
  · rcases h with ⟨h1, h2⟩
    subst h1
    simp [← h2, Pool.remainingCapacity, hf]
    omega

theorem acquire_some_inv (p : Pool) (i0 : ℕ) (p2 : Pool)
    (h : p.acquire = (some i0, p2)) (inv : PoolInv p) :
    i0 ∉ p.activeInstances ∧ PoolInv p2 := by
  unfold Pool.acquire at h
  rcases hf : p.freeIds with _ | ⟨j0, rest⟩ <;> simp [hf] at h
  · by_cases hlt : p.nextId < p.maxInstances
    · simp [hlt] at h
      rcases h with ⟨h1, h2⟩
      subst h1
      have hnotmem : p.nextId ∉ p.activeInstances := by
        intro hmem
        have := (inv.partition p.nextId).mpr (Or.inl hmem)
        omega
      refine ⟨hnotmem, ?_, ?_, ?_, ?_⟩
      · rw [← h2]
        simp
      · rw [← h2]
        intro i hi
        simp [hf] at hi
      · rw [← h2]
        intro i
        have hpart := inv.partition i
        rw [hf] at hpart
        simp only [List.not_mem_nil, or_false] at hpart
        simp only [hf, List.not_mem_nil, or_false, Finset.mem_insert]
        constructor
        · intro hl
          rcases Nat.lt_succ_iff_lt_or_eq.mp hl with h3 | h3
          · exact Or.inr (hpart.mp h3)
          · exact Or.inl h3
        · intro hmem
          rcases hmem with h3 | h3
          · omega
          · exact Nat.lt_succ_of_lt (hpart.mpr h3)
      · rw [← h2]
        simp only
        omega
    · simp [hlt] at h
  · rcases h with ⟨h1, h2⟩
    subst h1
    have hmemfree : j0 ∈ p.freeIds := by
      rw [hf]
      exact List.mem_cons_self j0 rest
    have hnotmem : j0 ∉ p.activeInstances := inv.freeNotActive j0 hmemfree
    have hndrest := inv.freeNodup
    rw [hf] at hndrest
    refine ⟨hnotmem, ?_, ?_, ?_, ?_⟩
    · rw [← h2]
      exact (List.nodup_cons.mp hndrest).2
    · rw [← h2]
      intro i hi
      simp only at hi
      have hi2 : i ∈ p.freeIds := by
        rw [hf]
        exact List.mem_cons_of_mem _ hi
      have hne : i ≠ j0 := by
        intro he
        subst he
        exact (List.nodup_cons.mp hndrest).1 hi
      intro hmem
      rcases Finset.mem_insert.mp hmem with h3 | h3
      · exact hne h3
      · exact inv.freeNotActive i hi2 h3
    · rw [← h2]
      intro i
      have hpart := inv.partition i
      rw [hf] at hpart
      simp only [List.mem_cons] at hpart
      simp only [Finset.mem_insert]
      constructor
      · intro hl
        rcases hpart.mp hl with h3 | h3 | h3
        · exact Or.inl (Or.inr h3)
        · exact Or.inl (Or.inl h3)
        · exact Or.inr h3
      · intro hmem
        rcases hmem with h3 | h3
        · rcases h3 with h3 | h3
          · exact hpart.mpr (Or.inr (Or.inl h3))
          · exact hpart.mpr (Or.inl h3)
        · exact hpart.mpr (Or.inr (Or.inr h3))
    · rw [← h2]
      exact inv.capBound

theorem acquire_cases (p : Pool) :
    (p.acquire = (none, p)) ∨
    (∃ id, p.acquire = (some id, (p.acquire).2)) := by
  rcases h : (p.acquire).1 with _ | id
  · left
    have := acquire_none_state p h
    rcases h2 : p.acquire with ⟨o, q⟩
    simp [h2] at h this
    simp [h, this]
  · right
    exact ⟨id, by rcases h2 : p.acquire with ⟨o, q⟩; simp_all⟩

theorem release_not_active (p : Pool) (id : ℕ)
    (h : id ∉ p.activeInstances) : p.release id = p := by
  simp [Pool.release, h]

theorem release_active (p : Pool) (i0 : ℕ) (h : i0 ∈ p.activeInstances)
    (inv : PoolInv p) :
    (p.release i0).activeInstances = p.activeInstances.erase i0 ∧
    (p.release i0).maxInstances = p.maxInstances ∧ PoolInv (p.release i0) := by
  have hfree : i0 ∉ p.freeIds := by
    intro hf
    exact inv.freeNotActive i0 hf h
  refine ⟨by simp [Pool.release, h], by simp [Pool.release, h],
    ?_, ?_, ?_, ?_⟩
  · simp only [Pool.release, h, if_true]
    exact List.nodup_cons.mpr ⟨hfree, inv.freeNodup⟩
  · simp only [Pool.release, h, if_true]
    intro i hi
    rcases List.mem_cons.mp hi with h3 | h3
    · subst h3
      exact Finset.not_mem_erase i p.activeInstances
    · intro hmem
      exact inv.freeNotActive i h3 (Finset.mem_of_mem_erase hmem)
  · simp only [Pool.release, h, if_true]
    intro i
    have hpart := inv.partition i
    by_cases he : i = i0
    · subst he
      simp only [List.mem_cons, true_or, or_true, iff_true]
      exact hpart.mpr (Or.inl h)
    · simp only [Finset.mem_erase, he, List.mem_cons, false_or,
        ne_eq, not_false_iff, true_and]
      exact hpart
  · simp only [Pool.release, h, if_true]
    exact inv.capBound

theorem poolInv_step (p : Pool) (op : PoolOp) (inv : PoolInv p) :
    PoolInv (p.step op) := by
  rcases op with _ | id
  · show PoolInv (p.acquire).2
    rcases acquire_cases p with h | ⟨id, h⟩
    · rw [h]
      exact inv
    · exact (acquire_some_inv p id (p.acquire).2 h inv).2
  · show PoolInv (p.release id)
    by_cases h : id ∈ p.activeInstances
    · exact (release_active p id h inv).2.2
    · rw [release_not_active p id h]
      exact inv

theorem poolInv_foldl (ops : List PoolOp) (p : Pool) (inv : PoolInv p) :
    PoolInv (ops.foldl Pool.step p) := by
  induction ops generalizing p with
  | nil => exact inv
  | cons op rest ih => exact ih (p.step op) (poolInv_step p op inv)

theorem poolInv_runPool (maxInstances : ℕ) (ops : List PoolOp) :
    PoolInv (runPool maxInstances ops) :=
  poolInv_foldl ops (Pool.mkPool maxInstances) (poolInv_mkPool maxInstances)

theorem poolInv_card_le (p : Pool) (inv : PoolInv p) :
    p.activeInstances.card ≤ p.nextId := by
  have hsub : p.activeInstances ⊆ Finset.range p.nextId := by
    intro id hid
    exact Finset.mem_range.mpr ((inv.partition id).mpr (Or.inl hid))
  calc p.activeInstances.card ≤ (Finset.range p.nextId).card :=
        Finset.card_le_card hsub
    _ = p.nextId := Finset.card_range p.nextId

/-- C1.  For every sequence of `acquire()`/`release()` calls on a fresh
`InstancePool(maxInstances)`, the active instance count never exceeds
`maxInstances` (this holds after every prefix of calls, since the prefix is
itself such a sequence), and `acquire()` returns `null` exactly when the
free list is empty and the running id counter has reached `maxInstances`. -/
theorem pool_capacity_invariant (maxInstances : ℕ) (ops : List PoolOp) :
    (runPool maxInstances ops).activeInstances.card ≤ maxInstances ∧
    (((runPool maxInstances ops).acquire).1 = none ↔
      (runPool maxInstances ops).freeIds = [] ∧
      (runPool maxInstances ops).nextId = maxInstances) := by
  have inv := poolInv_runPool maxInstances ops
  have hmax : (runPool maxInstances ops).maxInstances = maxInstances := by
    have h2 : ∀ (l : List PoolOp) (p : Pool),
        (l.foldl Pool.step p).maxInstances = p.maxInstances := by
      intro l
      induction l with
      | nil => intro p; rfl
      | cons op rest ih =>
          intro p
          rw [List.foldl_cons, ih]
          rcases op with _ | id
          · show (p.acquire).2.maxInstances = _
            rcases acquire_cases p with h | ⟨id, h⟩
            · rw [h]
            · exact (acquire_some_state p id (p.acquire).2 h).1
          · show (p.release id).maxInstances = _
            unfold Pool.release
            split <;> rfl
    exact h2 ops (Pool.mkPool maxInstances)
  constructor
  · calc (runPool maxInstances ops).activeInstances.card
        ≤ (runPool maxInstances ops).nextId := poolInv_card_le _ inv
      _ ≤ (runPool maxInstances ops).maxInstances := inv.capBound
      _ = maxInstances := hmax
  · rw [acquire_none_iff]
    have hcap := inv.capBound
    rw [hmax] at hcap
    constructor
    · rintro ⟨h1, h2⟩
      rw [hmax] at h2
      exact ⟨h1, by omega⟩
    · rintro ⟨h1, h2⟩
      rw [hmax]
      exact ⟨h1, by omega⟩

/-! ## Chunk lifecycle lemmas -/

theorem lookup_some_mem {m : List (ChunkKey × ChunkEntry)} {k : ChunkKey}
    {c : ChunkEntry} (h : m.lookup k = some c) : (k, c) ∈ m := by
  obtain ⟨l1, l2, hm, -⟩ := List.lookup_eq_some_iff.mp h
  subst hm
  simp

theorem lookup_none_not_key {m : List (ChunkKey × ChunkEntry)} {k : ChunkKey}
    (h : m.lookup k = none) : ∀ e ∈ m, e.1 ≠ k := by
  intro e he hk
  have h2 := List.lookup_eq_none_iff.mp h e he
  rw [hk] at h2
  simp at h2

theorem lookup_unique {m : List (ChunkKey × ChunkEntry)}
    (hnd : (m.map Prod.fst).Nodup) {k : ChunkKey} {c : ChunkEntry}
    (h : m.lookup k = some c) : ∀ e ∈ m, e.1 = k → e = (k, c) := by
  obtain ⟨l1, l2, hm, hl1⟩ := List.lookup_eq_some_iff.mp h
  subst hm
  rw [List.map_append, List.map_cons] at hnd
  have hnd2 := List.nodup_middle.mp hnd
  rw [List.nodup_cons] at hnd2
  intro e he hkey
  rcases List.mem_append.mp he with h3 | h3
  · exfalso
    have := hl1 e h3
    rw [hkey] at this
    simp at this
  · rcases List.mem_cons.mp h3 with h4 | h4
    · exact h4
    · exfalso
      apply hnd2.1
      rw [← hkey]
      refine List.mem_append.mpr (Or.inr ?_)
      exact List.mem_map.mpr ⟨e, h4, rfl⟩

theorem releaseList_spec (l : List ℕ) (p : Pool) (inv : PoolInv p)
    (hsub : ∀ i ∈ l, i ∈ p.activeInstances) (hnd : l.Nodup) :
    (l.foldl Pool.release p).activeInstances =
      p.activeInstances \ l.toFinset ∧
    (l.foldl Pool.release p).maxInstances = p.maxInstances ∧
    PoolInv (l.foldl Pool.release p) := by
  induction l generalizing p with
  | nil => exact ⟨by simp, rfl, inv⟩
  | cons i0 rest ih =>
      have hmem : i0 ∈ p.activeInstances := hsub i0 (List.mem_cons_self _ _)
      obtain ⟨ha, hm, hinv⟩ := release_active p i0 hmem inv
      have hnd2 := List.nodup_cons.mp hnd
      have hsub2 : ∀ i ∈ rest, i ∈ (p.release i0).activeInstances := by
        intro i hi
        rw [ha]
        refine Finset.mem_erase.mpr ⟨?_, hsub i (List.mem_cons_of_mem _ hi)⟩
        intro he
        subst he
        exact hnd2.1 hi
      obtain ⟨ha2, hm2, hinv2⟩ := ih (p.release i0) hinv hsub2 hnd2.2
      rw [List.foldl_cons]
      refine ⟨?_, by rw [hm2, hm], hinv2⟩
      rw [ha2, ha, Finset.erase_eq]
      ext j
      simp only [Finset.mem_sdiff, Finset.mem_singleton, List.toFinset_cons,
        Finset.mem_insert, List.mem_toFinset]
      tauto

theorem acquireMany_spec (n : ℕ) (p : Pool) (inv : PoolInv p) :
    PoolInv (acquireMany n p).2 ∧ (acquireMany n p).1.Nodup ∧
    (∀ i ∈ (acquireMany n p).1, i ∉ p.activeInstances) ∧
    (acquireMany n p).2.activeInstances =
      p.activeInstances ∪ (acquireMany n p).1.toFinset ∧
    (acquireMany n p).2.maxInstances = p.maxInstances := by
  induction n generalizing p with
  | zero => simp [acquireMany, inv]
  | succ n ih =>
      rcases hq : p.acquire with ⟨o, p2⟩
      rcases o with _ | i0
      · have h1 : (p.acquire).1 = none := by rw [hq]
        have h2 : p2 = p := by
          have := acquire_none_state p h1
          rw [hq] at this
          exact this
        subst h2
        simp [acquireMany, hq, inv]
      · obtain ⟨hnot, hinv2⟩ := acquire_some_inv p i0 p2 hq inv
        obtain ⟨hm, hact, _⟩ := acquire_some_state p i0 p2 hq
        obtain ⟨ih1, ih2, ih3, ih4, ih5⟩ := ih p2 hinv2
        have hred : acquireMany (n + 1) p =
            (i0 :: (acquireMany n p2).1, (acquireMany n p2).2) := by
          simp [acquireMany, hq]
        rw [hred]
        refine ⟨ih1, ?_, ?_, ?_, by rw [ih5, hm]⟩
        · refine List.nodup_cons.mpr ⟨?_, ih2⟩
          intro hmem
          exact ih3 i0 hmem (by rw [hact]; exact Finset.mem_insert_self _ _)
        · intro i hi
          rcases List.mem_cons.mp hi with h3 | h3
          · subst h3
            exact hnot
          · intro hmem
            exact ih3 i h3 (by rw [hact]; exact Finset.mem_insert_of_mem hmem)
        · rw [ih4, hact]
          ext j
          simp only [Finset.mem_union, Finset.mem_insert, List.toFinset_cons,
            List.mem_toFinset]
          tauto

theorem mem_setChunk {k : ChunkKey} {c : ChunkEntry}
    {m : List (ChunkKey × ChunkEntry)} {e : ChunkKey × ChunkEntry} :
    e ∈ setChunk k c m ↔ e = (k, c) ∨ (e ∈ m ∧ e.1 ≠ k) := by
  simp [setChunk, List.mem_filter]

theorem keys_setChunk {k : ChunkKey} {c : ChunkEntry}
    {m : List (ChunkKey × ChunkEntry)} (h : (m.map Prod.fst).Nodup) :
    ((setChunk k c m).map Prod.fst).Nodup := by
  rw [setChunk, List.map_cons, List.nodup_cons]
  constructor
  · intro hmem
    obtain ⟨e, he, hfst⟩ := List.mem_map.mp hmem
    have h2 := (List.mem_filter.mp he).2
    simp at h2
    exact h2 hfst
  · exact h.sublist ((List.filter_sublist m).map Prod.fst)

theorem pairwise_setChunk {k : ChunkKey} {c : ChunkEntry}
    {m : List (ChunkKey × ChunkEntry)}
    {D : ChunkKey × ChunkEntry → ChunkKey × ChunkEntry → Prop}
    (h : m.Pairwise D)
    (hhead : ∀ e ∈ m, D (k, c) e) : (setChunk k c m).Pairwise D := by
  rw [setChunk, List.pairwise_cons]
  constructor
  · intro e he
    exact hhead e (List.mem_of_mem_filter he)
  · exact h.sublist (List.filter_sublist m)

/-- Both-direction disjointness out of the `Pairwise` invariant. -/
theorem disjoint_of_pairwise {m : List (ChunkKey × ChunkEntry)}
    (hp : m.Pairwise
      (fun e1 e2 => ∀ i ∈ e1.2.instances, i ∉ e2.2.instances))
    {e1 e2 : ChunkKey × ChunkEntry} (he1 : e1 ∈ m) (he2 : e2 ∈ m)
    (hne : e1 ≠ e2) : ∀ i ∈ e1.2.instances, i ∉ e2.2.instances := by
  have hsymm : Symmetric
      (fun (a b : ChunkKey × ChunkEntry) =>
        ∀ i ∈ a.2.instances, i ∉ b.2.instances) := by
    intro a b hab i hib hia
    exact hab i hia hib
  exact hp.forall hsymm he1 he2 hne

theorem sysInv_doActivate (s : SysState) (k : ChunkKey) (n : ℕ)
    (inv : SysInv s)
    (hk : ∀ c, s.chunks.lookup k = some c → c.isActive = false) :
    SysInv (s.doActivate k n) := by
  obtain ⟨hq1, hq2, hq3, hq4, hq5⟩ := acquireMany_spec n s.pool inv.poolInv
  refine ⟨hq1, keys_setChunk inv.keysNodup, ?_, ?_, ?_, ?_, ?_⟩
  · intro e he hact
    rcases mem_setChunk.mp he with h3 | ⟨h3, -⟩
    · subst h3
      simp at hact
    · exact inv.inactiveEmpty e h3 hact
  · intro e he
    rcases mem_setChunk.mp he with h3 | ⟨h3, -⟩
    · subst h3
      exact hq2
    · exact inv.instNodup e h3
  · intro e he i hi
    show i ∈ (acquireMany n s.pool).2.activeInstances
    rw [hq4]
    rcases mem_setChunk.mp he with h3 | ⟨h3, -⟩
    · subst h3
      exact Finset.mem_union_right _ (List.mem_toFinset.mpr hi)
    · exact Finset.mem_union_left _ (inv.owned e h3 i hi)
  · refine pairwise_setChunk inv.disjointInst ?_
    intro e he i hi
    have hfresh : i ∉ s.pool.activeInstances := hq3 i hi
    intro hmem
    exact hfresh (inv.owned e he i hmem)
  · intro i hi
    rw [show (s.doActivate k n).pool = (acquireMany n s.pool).2 from rfl,
      hq4] at hi
    rcases Finset.mem_union.mp hi with h3 | h3
    · obtain ⟨e, he, hie⟩ := inv.covered i h3
      by_cases hkey : e.1 = k
      · exfalso
        rcases hl : s.chunks.lookup k with _ | c0
        · exact lookup_none_not_key hl e he hkey
        · have he2 := lookup_unique inv.keysNodup hl e he hkey
          have hempty := inv.inactiveEmpty e he (by rw [he2]; exact hk c0 hl)
          rw [hempty] at hie
          exact List.not_mem_nil i hie
      · exact ⟨e, mem_setChunk.mpr (Or.inr ⟨he, hkey⟩), hie⟩
    · exact ⟨(k, ⟨(acquireMany n s.pool).1, true⟩),
        mem_setChunk.mpr (Or.inl rfl), List.mem_toFinset.mp h3⟩

theorem sysInv_activate (s : SysState) (k : ChunkKey) (n : ℕ)
    (inv : SysInv s) : SysInv (s.activate k n) := by
  unfold SysState.activate
  rcases hl : s.chunks.lookup k with _ | c
  · exact sysInv_doActivate s k n inv (by intro c0 h; rw [hl] at h; cases h)
  · by_cases hact : c.isActive
    · simp [hact]
      exact inv
    · simp [hact]
      refine sysInv_doActivate s k n inv ?_
      intro c0 h
      rw [hl] at h
      cases h
      simpa using hact

theorem sysInv_deactivate (s : SysState) (k : ChunkKey) (inv : SysInv s) :
    SysInv (s.deactivate k) := by
  unfold SysState.deactivate
  rcases hl : s.chunks.lookup k with _ | c
  · exact inv
  · have hmem : (k, c) ∈ s.chunks := lookup_some_mem hl
    have hsubl : ∀ i ∈ c.instances, i ∈ s.pool.activeInstances :=
      inv.owned (k, c) hmem
    have hndl : c.instances.Nodup := inv.instNodup (k, c) hmem
    obtain ⟨ha, hm, hinv⟩ :=
      releaseList_spec c.instances s.pool inv.poolInv hsubl hndl
    refine ⟨hinv, keys_setChunk inv.keysNodup, ?_, ?_, ?_, ?_, ?_⟩
    · intro e he hact
      rcases mem_setChunk.mp he with h3 | ⟨h3, -⟩
      · rw [h3]
      · exact inv.inactiveEmpty e h3 hact
    · intro e he
      rcases mem_setChunk.mp he with h3 | ⟨h3, -⟩
      · rw [h3]
        exact List.nodup_nil
      · exact inv.instNodup e h3
    · intro e he i hi
      show i ∈ (c.instances.foldl Pool.release s.pool).activeInstances
      rw [ha]
      rcases mem_setChunk.mp he with h3 | ⟨h3, hkey⟩
      · rw [h3] at hi
        exact absurd hi (List.not_mem_nil i)
      · refine Finset.mem_sdiff.mpr ⟨inv.owned e h3 i hi, ?_⟩
        rw [List.mem_toFinset]
        have hne : e ≠ (k, c) := by
          intro he2
          rw [he2] at hkey
          exact hkey rfl
        exact disjoint_of_pairwise inv.disjointInst h3 hmem hne i hi
    · refine pairwise_setChunk inv.disjointInst ?_
      intro e _ i hi
      exact absurd hi (List.not_mem_nil i)
    · intro i hi
      rw [show (SysState.mk (c.instances.foldl Pool.release s.pool)
        (setChunk k ⟨[], false⟩ s.chunks)).pool =
        c.instances.foldl Pool.release s.pool from rfl, ha] at hi
      obtain ⟨hiact, hinl⟩ := Finset.mem_sdiff.mp hi
      obtain ⟨e, he, hie⟩ := inv.covered i hiact
      by_cases hkey : e.1 = k
      · exfalso
        have he2 := lookup_unique inv.keysNodup hl e he hkey
        rw [he2] at hie
        exact (List.mem_toFinset.not.mpr (by simpa using hinl))
          (List.mem_toFinset.mpr hie)
      · exact ⟨e, mem_setChunk.mpr (Or.inr ⟨he, hkey⟩), hie⟩

theorem sysInv_runSys (maxInstances : ℕ) (ops : List SysOp) :
    SysInv (runSys maxInstances ops) := by
  have hinit : SysInv ⟨Pool.mkPool maxInstances, []⟩ := by
    refine ⟨poolInv_mkPool maxInstances, ?_, ?_, ?_, ?_, ?_, ?_⟩ <;>
      simp [Pool.mkPool]
  have hstep : ∀ (l : List SysOp) (s : SysState), SysInv s →
      SysInv (l.foldl SysState.step s) := by
    intro l
    induction l with
    | nil => exact fun s inv => inv
    | cons op rest ih =>
        intro s inv
        rw [List.foldl_cons]
        refine ih (s.step op) ?_
        rcases op with ⟨k, n⟩ | k
        · exact sysInv_activate s k n inv
        · exact sysInv_deactivate s k inv
  exact hstep ops _ hinit

/-- C6.  After any sequence of (guarded) chunk activations and
deactivations on a fresh system: deactivating any currently-active chunk
releases each of its (pairwise-distinct) handles back to the pool exactly
once — the pool's active count drops by exactly the chunk's instance
count — and once every chunk is inactive the pool's active count is 0 (no
handle leaks across the cycles). -/
theorem chunk_release_symmetry (maxInstances : ℕ) (ops : List SysOp) :
    (∀ (k : ChunkKey) (c : ChunkEntry),
      (runSys maxInstances ops).chunks.lookup k = some c →
      c.isActive = true →
      c.instances.Nodup ∧
      ((runSys maxInstances ops).deactivate k).pool.activeInstances.card +
          c.instances.length =
        (runSys maxInstances ops).pool.activeInstances.card) ∧
    ((∀ e ∈ (runSys maxInstances ops).chunks, e.2.isActive = false) →
      (runSys maxInstances ops).pool.activeInstances.card = 0) := by
  have inv := sysInv_runSys maxInstances ops
  set s := runSys maxInstances ops with hs
  constructor
  · intro k c hl _
    have hmem : (k, c) ∈ s.chunks := lookup_some_mem hl
    have hsubl : ∀ i ∈ c.instances, i ∈ s.pool.activeInstances :=
      inv.owned (k, c) hmem
    have hndl : c.instances.Nodup := inv.instNodup (k, c) hmem
    obtain ⟨ha, -, -⟩ :=
      releaseList_spec c.instances s.pool inv.poolInv hsubl hndl
    have hdeact : (s.deactivate k).pool =
        c.instances.foldl Pool.release s.pool := by
      unfold SysState.deactivate
      rw [hl]
    refine ⟨hndl, ?_⟩
    rw [hdeact, ha]
    have hsubf : c.instances.toFinset ⊆ s.pool.activeInstances := by
      intro i hi
      exact hsubl i (List.mem_toFinset.mp hi)
    rw [Finset.card_sdiff hsubf, List.toFinset_card_of_nodup hndl]
    have hle := Finset.card_le_card hsubf
    rw [List.toFinset_card_of_nodup hndl] at hle
    omega
  · intro hall
    rw [Finset.card_eq_zero, Finset.eq_empty_iff_forall_not_mem]
    intro i hi
    obtain ⟨e, he, hie⟩ := inv.covered i hi
    have hempty := inv.inactiveEmpty e he (hall e he)
    rw [hempty] at hie
    exact List.not_mem_nil i hie

/-- C6 witness: activating one chunk with two handles then deactivating it
returns the pool's active count to 0, and the deactivation of the active
chunk releases exactly its two distinct handles. -/
theorem chunk_release_symmetry_witness :
    (([0, 1] : List ℕ).Nodup ∧
      ((runSys 5 [SysOp.activateOp (0, 0) 2]).deactivate
          (0, 0)).pool.activeInstances.card + ([0, 1] : List ℕ).length =
        (runSys 5 [SysOp.activateOp (0, 0) 2]).pool.activeInstances.card) ∧
    (runSys 5 [SysOp.activateOp (0, 0) 2,
      SysOp.deactivateOp (0, 0)]).pool.activeInstances.card = 0 := by
  constructor
  · have h := (chunk_release_symmetry 5 [SysOp.activateOp (0, 0) 2]).1
      (0, 0) ⟨[0, 1], true⟩ (by decide) (by decide)
    simpa using h
  · exact (chunk_release_symmetry 5 [SysOp.activateOp (0, 0) 2,
      SysOp.deactivateOp (0, 0)]).2 (by decide)

/-! ## Determinism (C2) -/

/-- C2.  Two `SeededRandom` instances constructed with the same seed and
driven through the same call sequence produce identical output streams and
final states, and two noise fields independently constructed from the same
seed agree at every query point, for `noise2D` and for `fbm2D` at equal
parameters.  The embedded state transition reads nothing but the seed
state — the source `next()` uses no clock or ambient entropy — so outputs
are functions of the seed alone. -/
theorem seeded_determinism (s1 s2 : ℕ) (h : s1 = s2) (calls : List RNGCall)
    (x y : ℚ) (octaves : ℕ) (persistence lacunarity scale : ℚ) :
    runCalls s1 calls = runCalls s2 calls ∧
    perlinNoise2D s1 x y = perlinNoise2D s2 x y ∧
    perlinFbm2D s1 x y octaves persistence lacunarity scale =
      perlinFbm2D s2 x y octaves persistence lacunarity scale := by
  subst h
  exact ⟨rfl, rfl, rfl⟩

/-- C2 witness at seed 42, a three-call sequence and the point (3/2, 7/4). -/
theorem seeded_determinism_witness :
    runCalls 42 [RNGCall.nextCall, RNGCall.rangeCall 1 5,
        RNGCall.rangeIntCall 0 10] =
      runCalls 42 [RNGCall.nextCall, RNGCall.rangeCall 1 5,
        RNGCall.rangeIntCall 0 10] ∧
    perlinNoise2D 42 (3 / 2) (7 / 4) = perlinNoise2D 42 (3 / 2) (7 / 4) ∧
    perlinFbm2D 42 (3 / 2) (7 / 4) 3 (1 / 2) 2 (1 / 10) =
      perlinFbm2D 42 (3 / 2) (7 / 4) 3 (1 / 2) 2 (1 / 10) :=
  seeded_determinism 42 42 rfl
    [RNGCall.nextCall, RNGCall.rangeCall 1 5, RNGCall.rangeIntCall 0 10]
    (3 / 2) (7 / 4) 3 (1 / 2) 2 (1 / 10)

/-! ## Chunk seed formula (C3) -/

theorem toUInt32_lt (v : ℤ) : toUInt32 v < 4294967296 := by
  unfold toUInt32
  omega

theorem toUInt32_jsXor (a b : ℤ) :
    toUInt32 (jsXor a b) = Nat.xor (toUInt32 a) (toUInt32 b) := by
  unfold jsXor
  set m := Nat.xor (toUInt32 a) (toUInt32 b) with hm
  have hu : m < 4294967296 := by
    have h1 : toUInt32 a < 2 ^ 32 := toUInt32_lt a
    have h2 : toUInt32 b < 2 ^ 32 := toUInt32_lt b
    exact Nat.xor_lt_two_pow h1 h2
  by_cases hlt : m < 2147483648
  · simp only [hlt, if_true]
    show toUInt32 (m : ℤ) = m
    unfold toUInt32
    omega
  · simp only [hlt, if_false]
    show toUInt32 ((m : ℤ) - 4294967296) = m
    unfold toUInt32
    omega

/-- C3.  For all integer chunk centre coordinates and global seed, the
chunk seed the source computes — signed 32-bit xors followed by `>>> 0` —
equals the specification's formula: the unsigned 32-bit value of
`(x * 73856093) XOR (z * 19349663) XOR globalSeed`.
(`chunkSeedCode` is the seed used for the chunk's RNG and noise field in
`gridPopulateChunk` and `radialActivateChunk`.) -/
theorem chunk_seed_formula (x z randomSeed : ℤ) :
    chunkSeedCode x z randomSeed = chunkSeedSpecFormula x z randomSeed := by
  unfold chunkSeedCode chunkSeedSpecFormula
  rw [toUInt32_jsXor, toUInt32_jsXor]

/-! ## LOD density multiplier at the blend window (C4) -/

/-- C4 is false on the code: with levels `{0: 1.0, 100: 0.5}` and
`blendDistance = 20`, the multiplier at distance 110 is `0.5`, not the
`0.75` the specification's linear interpolation demands — the code blends
at the *start* of the matched level's window (`[level.distance,
level.distance + blendDistance)`), never when entering the last level.
The same evaluation shows the function is discontinuous at the level
boundary: it is `1.0` just below distance 100 and `0.5` at 100, with no
blend in between. -/
theorem lod_multiplier_code_bug :
    lodDensityMultiplier [⟨0, 1, none⟩, ⟨100, 1 / 2, none⟩] 20 110 = 1 / 2 ∧
    lodDensityMultiplier [⟨0, 1, none⟩, ⟨100, 1 / 2, none⟩] 20 99 = 1 ∧
    lodDensityMultiplier [⟨0, 1, none⟩, ⟨100, 1 / 2, none⟩] 20 100 = 1 / 2 ∧
    lodDensityMultiplier [⟨0, 1, none⟩, ⟨100, 1 / 2, none⟩] 20 110 ≠ 3 / 4 := by
  refine ⟨?_, ?_, ?_, ?_⟩ <;> norm_num [lodDensityMultiplier, lodLoop]

/-! ## Density map fallback (C10) -/

/-- C10.  Whenever the computed `(u, v)` coordinate of a world position
leaves the unit square of the configured world bounds, `sampleDensityMap`
returns `1.0` (full density); likewise when no pixel data is loaded or no
density map is configured.  The density map therefore never suppresses
placement outside its mapped region. -/
theorem density_map_fallback (img : DensityMapImg) (cfg : DensityMapCfg)
    (x z : ℚ)
    (h : densityU cfg x < 0 ∨ 1 < densityU cfg x ∨
      densityV cfg z < 0 ∨ 1 < densityV cfg z) :
    sampleDensityMap (some img) (some cfg) x z = 1 ∧
    (∀ (c : Option DensityMapCfg) (x2 z2 : ℚ),
      sampleDensityMap none c x2 z2 = 1) ∧
    (∀ (i : Option DensityMapImg) (x2 z2 : ℚ),
      sampleDensityMap i none x2 z2 = 1) := by
  refine ⟨?_, ?_, ?_⟩
  · unfold sampleDensityMap
    dsimp only
    rw [if_pos h]
  · intro c x2 z2
    rfl
  · intro i x2 z2
    unfold sampleDensityMap
    rcases i with _ | i0 <;> rfl

/-- C10 witness: bounds `[0,1]×[0,1]`, world position `(2, 0)` gives
`u = 2 > 1`, so the sample is the full-density `1.0`. -/
theorem density_map_fallback_witness :
    sampleDensityMap (some ⟨1, 1, fun _ => 0⟩)
      (some ⟨⟨0, 0, 1, 1⟩, 0, 1⟩) 2 0 = 1 ∧
    (∀ (c : Option DensityMapCfg) (x2 z2 : ℚ),
      sampleDensityMap none c x2 z2 = 1) ∧
    (∀ (i : Option DensityMapImg) (x2 z2 : ℚ),
      sampleDensityMap i none x2 z2 = 1) :=
  density_map_fallback ⟨1, 1, fun _ => 0⟩ ⟨⟨0, 0, 1, 1⟩, 0, 1⟩ 2 0
    (by norm_num [densityU, densityV])

/-! ## Noise range (C9)

The gradients are `±u ± 2v` with cell-local coordinates, so a corner value
can reach magnitude 3; the final `(value + 1) * 0.5` therefore lands in
`[-1, 2]`, not `[0, 1]`. -/

theorem fade_factored (t : ℚ) : fade t = t ^ 3 * (6 * t ^ 2 - 15 * t + 10) := by
  unfold fade
  ring

theorem one_sub_fade (t : ℚ) :
    1 - fade t = (1 - t) ^ 3 * (6 * t ^ 2 + 3 * t + 1) := by
  unfold fade
  ring

theorem fade_mem (t : ℚ) (h0 : 0 ≤ t) (h1 : t ≤ 1) :
    0 ≤ fade t ∧ fade t ≤ 1 := by
  constructor
  · rw [fade_factored]
    have hq : 0 ≤ 6 * t ^ 2 - 15 * t + 10 := by
      nlinarith [sq_nonneg (2 * t - 5 / 2)]
    exact mul_nonneg (pow_nonneg h0 3) hq
  · have h2 : 0 ≤ 1 - fade t := by
      rw [one_sub_fade]
      have h3 : 0 ≤ (1 - t) ^ 3 := pow_nonneg (by linarith) 3
      nlinarith [sq_nonneg t]
    linarith

theorem grad_bound (hash : ℕ) (x y : ℚ) (hx0 : -1 ≤ x) (hx1 : x ≤ 1)
    (hy0 : -1 ≤ y) (hy1 : y ≤ 1) :
    -3 ≤ grad hash x y ∧ grad hash x y ≤ 3 := by
  unfold grad
  dsimp only
  split_ifs <;> constructor <;> linarith

theorem lerpQ_bound (a b t : ℚ) (ha : -3 ≤ a ∧ a ≤ 3) (hb : -3 ≤ b ∧ b ≤ 3)
    (ht : 0 ≤ t ∧ t ≤ 1) : -3 ≤ lerpQ a b t ∧ lerpQ a b t ≤ 3 := by
  unfold lerpQ
  obtain ⟨ha0, ha1⟩ := ha
  obtain ⟨hb0, hb1⟩ := hb
  obtain ⟨ht0, ht1⟩ := ht
  constructor <;> nlinarith

theorem noise_core_bound (g00 g10 g01 g11 u v : ℚ)
    (h00 : -3 ≤ g00 ∧ g00 ≤ 3) (h10 : -3 ≤ g10 ∧ g10 ≤ 3)
    (h01 : -3 ≤ g01 ∧ g01 ≤ 3) (h11 : -3 ≤ g11 ∧ g11 ≤ 3)
    (hu : 0 ≤ u ∧ u ≤ 1) (hv : 0 ≤ v ∧ v ≤ 1) :
    -1 ≤ (lerpQ (lerpQ g00 g10 u) (lerpQ g01 g11 u) v + 1) * (1 / 2) ∧
    (lerpQ (lerpQ g00 g10 u) (lerpQ g01 g11 u) v + 1) * (1 / 2) ≤ 2 := by
  have l1 := lerpQ_bound g00 g10 u h00 h10 hu
  have l2 := lerpQ_bound g01 g11 u h01 h11 hu
  have l3 := lerpQ_bound _ _ v l1 l2 hv
  constructor <;> linarith [l3.1, l3.2]

theorem noise2D_bound (perm : ℕ → ℕ) (x y : ℚ) :
    -1 ≤ noise2D perm x y ∧ noise2D perm x y ≤ 2 := by
  have hx0 : (0 : ℚ) ≤ x - ⌊x⌋ := by
    have := Int.floor_le x
    linarith
  have hx1 : x - ⌊x⌋ ≤ 1 := by
    have := Int.lt_floor_add_one x
    linarith
  have hy0 : (0 : ℚ) ≤ y - ⌊y⌋ := by
    have := Int.floor_le y
    linarith
  have hy1 : y - ⌊y⌋ ≤ 1 := by
    have := Int.lt_floor_add_one y
    linarith
  unfold noise2D
  dsimp only
  exact noise_core_bound _ _ _ _ _ _
    (grad_bound _ _ _ (by linarith) hx1 (by linarith) hy1)
    (grad_bound _ _ _ (by linarith) (by linarith) (by linarith) hy1)
    (grad_bound _ _ _ (by linarith) hx1 (by linarith) (by linarith))
    (grad_bound _ _ _ (by linarith) (by linarith) (by linarith) (by linarith))
    (fade_mem _ hx0 hx1) (fade_mem _ hy0 hy1)

theorem fbmAux_invariant (perm : ℕ → ℕ) (x y p l : ℚ) (hp : 0 < p) :
    ∀ (n : ℕ) (value amp freq maxV : ℚ), 0 < amp →
    value - ((fbmAux perm x y p l n (value, amp, freq, maxV)).2 - maxV) ≤
      (fbmAux perm x y p l n (value, amp, freq, maxV)).1 ∧
    (fbmAux perm x y p l n (value, amp, freq, maxV)).1 ≤
      value + 2 * ((fbmAux perm x y p l n (value, amp, freq, maxV)).2 - maxV) ∧
    maxV ≤ (fbmAux perm x y p l n (value, amp, freq, maxV)).2 := by
  intro n
  induction n with
  | zero =>
      intro value amp freq maxV _
      simp [fbmAux]
  | succ n ih =>
      intro value amp freq maxV ha
      have hstep := ih (value + noise2D perm (x * freq) (y * freq) * amp)
        (amp * p) (freq * l) (maxV + amp) (mul_pos ha hp)
      have hn := noise2D_bound perm (x * freq) (y * freq)
      have hlo : -amp ≤ noise2D perm (x * freq) (y * freq) * amp := by
        nlinarith [hn.1]
      have hhi : noise2D perm (x * freq) (y * freq) * amp ≤ 2 * amp := by
        nlinarith [hn.2]
      have hred : fbmAux perm x y p l (n + 1) (value, amp, freq, maxV) =
          fbmAux perm x y p l n (value + noise2D perm (x * freq) (y * freq)
            * amp, amp * p, freq * l, maxV + amp) := by
        simp [fbmAux]
      rw [hred]
      refine ⟨by linarith [hstep.1], by linarith [hstep.2.1], ?_⟩
      have := hstep.2.2
      linarith

theorem fbm2D_bound (perm : ℕ → ℕ) (x y : ℚ) (octaves : ℕ)
    (p l sc : ℚ) (hoct : 1 ≤ octaves) (hp : 0 < p) :
    -1 ≤ fbm2D perm x y octaves p l sc ∧ fbm2D perm x y octaves p l sc ≤ 2 := by
  obtain ⟨n, rfl⟩ : ∃ n, octaves = n + 1 := ⟨octaves - 1, by omega⟩
  unfold fbm2D
  dsimp only
  have hred : fbmAux perm (x * sc) (y * sc) p l (n + 1) (0, 1, 1, 0) =
      fbmAux perm (x * sc) (y * sc) p l n
        (0 + noise2D perm (x * sc * 1) (y * sc * 1) * 1, 1 * p, 1 * l,
          0 + 1) := by
    simp [fbmAux]
  rw [hred]
  have hinv := fbmAux_invariant perm (x * sc) (y * sc) p l hp n
    (0 + noise2D perm (x * sc * 1) (y * sc * 1) * 1) (1 * p) (1 * l) (0 + 1)
    (by linarith)
  set r := fbmAux perm (x * sc) (y * sc) p l n
    (0 + noise2D perm (x * sc * 1) (y * sc * 1) * 1, 1 * p, 1 * l, 0 + 1)
    with hr
  have hn := noise2D_bound perm (x * sc * 1) (y * sc * 1)
  have hpos : 0 < r.2 := by linarith [hinv.2.2]
  have h1 : -r.2 ≤ r.1 := by linarith [hinv.1, hinv.2.2, hn.1]
  have h2 : r.1 ≤ 2 * r.2 := by linarith [hinv.2.1, hinv.2.2, hn.2]
  constructor
  · rw [le_div_iff₀ hpos]
    linarith
  · rw [div_le_iff₀ hpos]
    linarith

/-- C9 as amended: `noise2D` always lands in `[-1, 2]` (not `[0, 1]`), and
`fbm2D` — a convex combination of octave `noise2D` values whenever
`octaves ≥ 1` and `persistence > 0` — lands in the same interval. -/
theorem noise_range (seed : ℕ) (x y : ℚ) (octaves : ℕ)
    (persistence lacunarity scale : ℚ) (hoct : 1 ≤ octaves)
    (hp : 0 < persistence) :
    (-1 ≤ perlinNoise2D seed x y ∧ perlinNoise2D seed x y ≤ 2) ∧
    (-1 ≤ perlinFbm2D seed x y octaves persistence lacunarity scale ∧
      perlinFbm2D seed x y octaves persistence lacunarity scale ≤ 2) :=
  ⟨noise2D_bound (permTable seed) x y,
   fbm2D_bound (permTable seed) x y octaves persistence lacunarity scale
     hoct hp⟩

/-- C9 amended-claim witness at seed 7, point (5/3, 9/7), 3 octaves. -/
theorem noise_range_witness :
    (-1 ≤ perlinNoise2D 7 (5 / 3) (9 / 7) ∧
      perlinNoise2D 7 (5 / 3) (9 / 7) ≤ 2) ∧
    (-1 ≤ perlinFbm2D 7 (5 / 3) (9 / 7) 3 (1 / 2) 2 (1 / 10) ∧
      perlinFbm2D 7 (5 / 3) (9 / 7) 3 (1 / 2) 2 (1 / 10) ≤ 2) :=
  noise_range 7 (5 / 3) (9 / 7) 3 (1 / 2) 2 (1 / 10) (by norm_num)
    (by norm_num)

unseal Rat.add Rat.mul Rat.sub Rat.inv in
/-- C9 counterexample to the claim as stated: the noise field seeded with
1 returns a negative value at `(83/8, 21/2)` (exact value
`-32321/524288`), so `noise2D` does not map into `[0, 1]`. -/
theorem noise_below_zero : perlinNoise2D 1 (83 / 8) (21 / 2) < 0 := by
  decide

/-! ## Radial population under pool pressure (C7) -/

theorem hasCapacity_false_acquire (p : Pool) (h : p.hasCapacity = false) :
    p.acquire = (none, p) := by
  unfold Pool.hasCapacity at h
  rw [Bool.or_eq_false_iff] at h
  obtain ⟨h1, h2⟩ := h
  rw [Bool.not_eq_false'] at h1
  unfold Pool.acquire
  rw [List.isEmpty_iff] at h1
  rw [h1]
  simp at h2
  simp [h2]

theorem radialLoop_count (fns : MathFns) (cfg : RadialCfg) (perm : ℕ → ℕ)
    (cX cZ : ℚ) (target : ℕ) :
    ∀ (fuel : ℕ) (st : RState),
    (radialLoop fns cfg perm cX cZ target fuel st).inst.length +
      (radialLoop fns cfg perm cX cZ target fuel st).pool.remainingCapacity =
      st.inst.length + st.pool.remainingCapacity := by
  intro fuel
  induction fuel with
  | zero => intro st; rfl
  | succ fuel ih =>
      intro st
      rw [radialLoop]
      by_cases hplaced : st.inst.length < target
      · rw [if_pos hplaced]
        dsimp only
        split_ifs <;> try exact ih _
        all_goals split
        all_goals rename_i heq
        all_goals first
          | (have h1 : (st.pool.acquire).1 = none := by rw [heq]
             have h2 := acquire_none_state st.pool h1
             rw [heq] at h2
             simp only at h2
             try dsimp only
             rw [h2])
          | (have h3 := (acquire_some_state st.pool _ _ heq).2.2
             rw [ih]
             try dsimp only
             try rw [List.length_append]
             try simp only [List.length_cons, List.length_nil]
             omega)
      · rw [if_neg hplaced]

theorem radialLoop_exhausted (fns : MathFns) (cfg : RadialCfg)
    (perm : ℕ → ℕ) (cX cZ : ℚ) (target : ℕ) :
    ∀ (fuel : ℕ) (st : RState), st.pool.hasCapacity = false →
    (radialLoop fns cfg perm cX cZ target fuel st).inst = st.inst ∧
    (radialLoop fns cfg perm cX cZ target fuel st).pool = st.pool := by
  intro fuel
  induction fuel with
  | zero => exact fun st _ => ⟨rfl, rfl⟩
  | succ fuel ih =>
      intro st h
      rw [radialLoop]
      by_cases hplaced : st.inst.length < target
      · rw [if_pos hplaced]
        dsimp only
        have hacq := hasCapacity_false_acquire st.pool h
        split_ifs <;> try exact ih _ h
        all_goals split
        all_goals rename_i heq
        all_goals rw [hacq] at heq
        all_goals injection heq with h1 h2
        all_goals first
          | exact Option.noConfusion h1
          | exact ⟨rfl, h2.symm⟩
      · rw [if_neg hplaced]
        exact ⟨rfl, rfl⟩

/-- C7.  `BaseScatterSystem.activateChunk` with the radial strategy's
`populateChunk`: the chunk is always activated (flag set, event emitted),
the activation event reports exactly the number of instances placed, each
placed instance consumes exactly one unit of pool capacity (so a `null`
from `acquire()` mid-loop stops placement rather than erroring), and with
an exhausted pool the loop places nothing while the chunk still activates
and the event reports 0.  Capacity exhaustion is never an error: the
embedding is total. -/
theorem radial_pool_exhaustion (fns : MathFns) (cfg : RadialCfg)
    (cx cz : ℤ) (pool : Pool) :
    (radialActivateChunk fns cfg cx cz pool).isActive = true ∧
    (radialActivateChunk fns cfg cx cz pool).eventCount =
      (radialActivateChunk fns cfg cx cz pool).state.inst.length ∧
    (radialActivateChunk fns cfg cx cz pool).state.inst.length +
      (radialActivateChunk fns cfg cx cz pool).state.pool.remainingCapacity =
      pool.remainingCapacity ∧
    (pool.hasCapacity = false →
      (radialActivateChunk fns cfg cx cz pool).state.inst = [] ∧
      (radialActivateChunk fns cfg cx cz pool).eventCount = 0) := by
  unfold radialActivateChunk
  dsimp only
  refine ⟨rfl, rfl, ?_, ?_⟩
  · rw [radialLoop_count]
    simp
  · intro h
    have h2 := radialLoop_exhausted fns cfg
      (permTable (chunkSeedCode cx cz cfg.randomSeed)) (cx : ℚ) (cz : ℚ)
      (⌊cfg.chunkSize * cfg.chunkSize * cfg.density⌋).toNat
      ((⌊cfg.chunkSize * cfg.chunkSize * cfg.density⌋).toNat * 5)
      ⟨chunkSeedCode cx cz cfg.randomSeed, pool, [], []⟩ h
    refine ⟨h2.1, ?_⟩
    rw [h2.1]
    rfl

/-- C7 witness: a radial chunk activation against an exhausted pool
(capacity 0) still activates the chunk, reports 0 instances, and consumes
no capacity. -/
theorem radial_pool_exhaustion_witness :
    (radialActivateChunk
        ⟨fun _ => 1, fun _ => 0, fun _ _ => 0, fun _ _ => 0, fun _ => 1⟩
        ⟨0, 0, 0, 10, 0, 6, 0, 0, 0, 4, 1, 0, 1, 1, 2, 0,
          ⟨false, 3, 1 / 2, 2, 1 / 10, 3 / 10, 1, 0⟩, 7⟩
        0 0 (Pool.mkPool 0)).isActive = true ∧
    (radialActivateChunk
        ⟨fun _ => 1, fun _ => 0, fun _ _ => 0, fun _ _ => 0, fun _ => 1⟩
        ⟨0, 0, 0, 10, 0, 6, 0, 0, 0, 4, 1, 0, 1, 1, 2, 0,
          ⟨false, 3, 1 / 2, 2, 1 / 10, 3 / 10, 1, 0⟩, 7⟩
        0 0 (Pool.mkPool 0)).state.inst = [] ∧
    (radialActivateChunk
        ⟨fun _ => 1, fun _ => 0, fun _ _ => 0, fun _ _ => 0, fun _ => 1⟩
        ⟨0, 0, 0, 10, 0, 6, 0, 0, 0, 4, 1, 0, 1, 1, 2, 0,
          ⟨false, 3, 1 / 2, 2, 1 / 10, 3 / 10, 1, 0⟩, 7⟩
        0 0 (Pool.mkPool 0)).eventCount = 0 := by
  have h := radial_pool_exhaustion
    ⟨fun _ => 1, fun _ => 0, fun _ _ => 0, fun _ _ => 0, fun _ => 1⟩
    ⟨0, 0, 0, 10, 0, 6, 0, 0, 0, 4, 1, 0, 1, 1, 2, 0,
      ⟨false, 3, 1 / 2, 2, 1 / 10, 3 / 10, 1, 0⟩, 7⟩
    0 0 (Pool.mkPool 0)
  have h4 := h.2.2.2 (by decide)
  exact ⟨h.1, h4.1, h4.2⟩

/-! ## Degenerate curve geometry (C8) -/

/-- C8 is false on the code: for a single-point curve point list the
`populateChunk` parameter `t = i / (pointCount - 1)` is the unguarded
`0 / 0` (NaN, modelled `none`), and the tangent pass of
`generateCurvePoints` reads `curvePoints[-1]` (`undefined`, modelled
`none`) at index 0, since index 0 is the last index.  For point counts
`≥ 2` (e.g. 3) the same expressions are well defined — the code
special-cases nothing about counts `≤ 1`. -/
theorem curve_single_point_unguarded :
    curveParamT 1 0 = none ∧
    curveTangentOperands [⟨0, 0, 0⟩] 0 = none ∧
    curveParamT 3 1 = some (1 / 2) ∧
    curveTangentOperands [⟨0, 0, 0⟩, ⟨1, 0, 0⟩] 0 =
      some (⟨1, 0, 0⟩, ⟨0, 0, 0⟩) := by
  refine ⟨rfl, by decide, ?_, by decide⟩
  unfold curveParamT
  norm_num

/-! ## The grid scatter scenario (C5)

Config of the specification's scenario: `gridSize (2,2)`, `cellSize 10`,
`randomOffset 0`, seed 42, grid centred at the origin, default
`chunkSize 64`, no skip pattern, camera at the origin with a large
visibility range and frustum culling disabled.  The rotation and scale
ranges are fixed at degenerate values; with `randomOffset = 0` the RNG
draws they consume do not move any position, and the claim quantifies
positions before rotation jitter and height offset. -/

unseal Rat.add Rat.mul Rat.sub Rat.inv in
/-- C5.  The grid scenario places exactly 4 instances, at the exact cell
centres `(-5, 0, -5)`, `(-5, 0, 5)`, `(5, 0, -5)` and `(5, 0, 5)` (in
chunk activation order), with zero jitter. -/
theorem grid_scenario_four_instances :
    ((gridUpdateChunks ⟨2, 2, 10, 0, 0, 0, 64, 42, 0, 0, 1, 1, 0, 1000,
        none⟩ 0 0 (fun _ _ => true) (Pool.mkPool 10000)).2.map
      (fun pi => (pi.posX, pi.posY, pi.posZ))) =
      [(-5, 0, -5), (-5, 0, 5), (5, 0, -5), (5, 0, 5)] ∧
    (gridUpdateChunks ⟨2, 2, 10, 0, 0, 0, 64, 42, 0, 0, 1, 1, 0, 1000,
        none⟩ 0 0 (fun _ _ => true) (Pool.mkPool 10000)).2.length = 4 := by
  constructor <;> decide

end ThreeScatter
